import Mathlib

/-!
Verification development for the PDF Table Extractor script
(`src/pdf_table_new.py`).

The script is shallowly embedded: the pure helper `make_unique_columns`
becomes a Lean function, pandas data frames become a `DF` structure of
column labels and string rows, the per-page / per-table extraction loops
become structural recursions carrying the `enumerate` counters, the
Streamlit session state becomes an explicit `SessionState` record, and
the upload handler becomes a state-transition function.  The external
`pdfplumber` parser is an input: a list of pages, each a list of raw
tables (grids of cell strings), together with an optional error it
raises.  A dictionary access that can raise `KeyError` is embedded as an
`Option` result.
-/

/-- A raw table as returned by `page.extract_tables()`: a grid of cell
strings (rows of cells). -/
abbrev RawTable : Type := List (List String)

/-- Recursion worker for `make_unique_columns`: `seen` models the Python
dict mapping a column string to its current repeat counter. -/
def muc_go (seen : String → Option Nat) : List String → List String
  | [] => []
  | col :: rest =>
    match seen col with
    | some n =>
        (col ++ "_" ++ Nat.repr (n + 1)) ::
          muc_go (fun s => if s = col then some (n + 1) else seen s) rest
    | none =>
        col :: muc_go (fun s => if s = col then some 0 else seen s) rest

/-- Source lines 9-19: `make_unique_columns(columns)`.  On the first
occurrence of a string the string itself is emitted and its counter set
to 0; on a repeat the counter is incremented first and
`f"{col}_{seen[col]}"` is emitted. -/
def make_unique_columns (columns : List String) : List String :=
  muc_go (fun _ => none) columns

/-- A pandas column label: positional (default `RangeIndex`) or named. -/
inductive ColName : Type
  | pos : Nat → ColName
  | named : String → ColName
deriving DecidableEq

/-- A pandas data frame: an ordered list of column labels and an ordered
list of rows of cell strings. -/
structure DF : Type where
  columns : List ColName
  rows : List (List String)
deriving DecidableEq

/-- The number of columns pandas assigns to `pd.DataFrame(table)`: the
length of the longest row. -/
def tableWidth (table : RawTable) : Nat :=
  (table.map List.length).foldr Nat.max 0

/-- The `header_option` radio value, source line 38. -/
inductive HeaderOption : Type
  | allPages
  | onlyFirstPage
deriving DecidableEq

/-- Source lines 56-60: build the data frame for one raw table.  When the
header branch is taken, row 0 becomes the (deduplicated, named) column
labels and the remaining rows the data; otherwise `pd.DataFrame(table)`
keeps every row as data under default positional column labels. -/
def tableDF (header_option : HeaderOption) (page_num : Nat) (table : RawTable) : DF :=
  if header_option = HeaderOption.allPages ∨
      (header_option = HeaderOption.onlyFirstPage ∧ page_num = 0) then
    ⟨(make_unique_columns (table.headD [])).map ColName.named, table.tail⟩
  else
    ⟨(List.range (tableWidth table)).map ColName.pos, table⟩

/-- Source line 61: `f"Page {page_num + 1} - Table {table_num + 1}"`. -/
def mkLabel (page_num table_num : Nat) : String :=
  "Page " ++ Nat.repr (page_num + 1) ++ " - Table " ++ Nat.repr (table_num + 1)

/-- Source lines 54-62: the per-table loop.  The `Nat` argument is the
`enumerate` counter `table_num`; an empty raw table is skipped (`if
table:`) but still advances the counter. -/
def pageTablesGo (header_option : HeaderOption) (page_num : Nat) :
    Nat → List RawTable → List (String × DF)
  | _, [] => []
  | table_num, table :: rest =>
    if table ≠ [] then
      (mkLabel page_num table_num, tableDF header_option page_num table) ::
        pageTablesGo header_option page_num (table_num + 1) rest
    else
      pageTablesGo header_option page_num (table_num + 1) rest

/-- The `page_tables` list built for one page (counter starts at 0). -/
def pageTables (header_option : HeaderOption) (page_num : Nat)
    (extracted_tables : List RawTable) : List (String × DF) :=
  pageTablesGo header_option page_num 0 extracted_tables

/-- One value of `st.session_state.pdf_data` (source lines 63-66): the
preview image (opaque here) and the labelled tables of the page. -/
structure PageEntry : Type where
  image : Unit
  tables : List (String × DF)
deriving DecidableEq

/-- Source lines 50-66: the per-page loop.  The `Nat` argument is the
`enumerate` counter `page_num`; the dictionary key is `page_num + 1`. -/
def extractPagesGo (header_option : HeaderOption) :
    Nat → List (List RawTable) → List (Nat × PageEntry)
  | _, [] => []
  | page_num, page :: rest =>
    (page_num + 1, ⟨(), pageTables header_option page_num page⟩) ::
      extractPagesGo header_option (page_num + 1) rest

/-- The full `pdf_data` dictionary built from the pages the parser yields. -/
def extractPages (header_option : HeaderOption)
    (pages : List (List RawTable)) : List (Nat × PageEntry) :=
  extractPagesGo header_option 0 pages

/-- The Streamlit session state: each field is `none` when the key is
absent from `st.session_state`. -/
structure SessionState : Type where
  pdf_data : Option (List (Nat × PageEntry))
  selected_page : Option Nat
  last_uploaded_filename : Option String
deriving DecidableEq

/-- The state before any upload has been processed: no keys set. -/
def initState : SessionState := ⟨none, none, none⟩

/-- Source lines 41-69: the upload handler.  The guard re-extracts
exactly when `last_uploaded_filename` is absent or differs from the
uploaded name.  The behaviour of the external parser is the input `pages`
(the pages it yields) and `err` (`some e` when it raises).  On an error
the `except` branch sets `pdf_data` to `{}` and calls `st.error`; the
returned Bool records whether that error was shown. -/
def processUpload (header_option : HeaderOption) (st : SessionState)
    (filename : String) (pages : List (List RawTable)) (err : Option String) :
    SessionState × Bool :=
  if st.last_uploaded_filename = some filename then
    (st, false)
  else
    match err with
    | none => (⟨some (extractPages header_option pages), some 1, some filename⟩, false)
    | some _ => (⟨some [], some 1, some filename⟩, true)

/-- Source line 74: `all_tables`, the data frames of every page in
order. -/
def all_tables (pdf_data : List (Nat × PageEntry)) : List DF :=
  pdf_data.flatMap (fun page => page.2.tables.map Prod.snd)

/-- Source line 75: `table_labels`, the labels of every page in order. -/
def table_labels (pdf_data : List (Nat × PageEntry)) : List String :=
  pdf_data.flatMap (fun page => page.2.tables.map Prod.fst)

/-- Source lines 77-82: the selected data frames — everything under
"Select All Tables", otherwise those whose label is in the multiselect
value. -/
def selected_tables (tableLabels : List String) (allTables : List DF)
    (select_all : Bool) (selected_labels : List String) : List DF :=
  if select_all then allTables
  else ((tableLabels.zip allTables).filter
    (fun lt => selected_labels.contains lt.1)).map Prod.snd

/-- The union of the column labels of `dfs` in order of first
appearance (pandas outer join on columns). -/
def colUnion (dfs : List DF) : List ColName :=
  dfs.foldl (fun acc df => acc ++ df.columns.filter (fun c => !acc.contains c)) []

/-- Reindex one row from its own columns to the target columns; a column
absent from the source frame yields a missing cell (empty string). -/
def alignRow (cols : List ColName) (target : List ColName) (row : List String) :
    List String :=
  target.map (fun c =>
    match cols.indexOf? c with
    | some i => row.getD i ""
    | none => "")

/-- Source line 85: `pd.concat(selected_tables, ignore_index=True)` —
rows of every frame in order, reindexed to the unioned columns. -/
def pd_concat (dfs : List DF) : DF :=
  ⟨colUnion dfs, dfs.flatMap (fun df => df.rows.map (alignRow df.columns (colUnion dfs)))⟩

/-- The artifacts produced by the export block: the combined frame, the
fixed CSV file name, the fixed Excel sheet name, and the ZIP entries. -/
structure Artifacts : Type where
  combined : DF
  csv_name : String
  excel_sheet : String
  zip_entries : List (String × DF)
deriving DecidableEq

/-- Source lines 84-105: the whole export block runs only when
`selected_tables` is non-empty (`if selected_tables:`); inside it the
ZIP archive gets one `f"{label}.csv"` entry per extracted table,
iterating `zip(table_labels, all_tables)` — independent of the
selection. -/
def renderExports (tableLabels : List String) (allTables : List DF)
    (select_all : Bool) (selected_labels : List String) : Option Artifacts :=
  if selected_tables tableLabels allTables select_all selected_labels = [] then
    none
  else
    some ⟨pd_concat (selected_tables tableLabels allTables select_all selected_labels),
      "combined_table.csv", "Sheet1",
      (tableLabels.zip allTables).map (fun lt => (lt.1 ++ ".csv", lt.2))⟩

/-- Source lines 120-125: the right viewer pane.  The selected page is
`st.session_state.get("selected_page", 1)`; the subsequent dictionary
access `st.session_state.pdf_data[selected_page]` raises `KeyError` when
the page is not a key, embedded as a `none` result. -/
def viewerTables (pdf_data : List (Nat × PageEntry)) (selected_page : Option Nat) :
    Option (List (String × DF)) :=
  (pdf_data.lookup (selected_page.getD 1)).map PageEntry.tables

/-- Reference emission: what the deduplicator emits for `col` after the
strings `pre` have already been processed. -/
def dedupEmit (pre : List String) (col : String) : String :=
  if pre.count col = 0 then col else col ++ "_" ++ Nat.repr (pre.count col)

/-- Reference recursion carrying the processed prefix instead of the
counter dictionary. -/
def dedupSpec (pre : List String) : List String → List String
  | [] => []
  | col :: rest => dedupEmit pre col :: dedupSpec (pre ++ [col]) rest

/-- The dictionary state of `muc_go` determined by a processed prefix. -/
def seenOf (pre : List String) : String → Option Nat :=
  fun s => if pre.count s = 0 then none else some (pre.count s - 1)

/-- Decimal digit characters of a natural number, most significant
first; reference version of the digit list underlying `Nat.repr`. -/
def decChars (n : Nat) : List Char :=
  if _h : n < 10 then [Nat.digitChar n]
  else decChars (n / 10) ++ [Nat.digitChar (n % 10)]
decreasing_by exact Nat.div_lt_self (by omega) (by omega)

/-- Parse a decimal digit string back to the number it denotes. -/
def parseDec (l : List Char) : Nat :=
  l.foldl (fun a c => 10 * a + (c.toNat - 48)) 0

/-- The space character that separates the decimal numerals inside a
table label. -/
def spChar : Char := Char.ofNat 32

lemma seenOf_update (pre : List String) (col : String) :
    (fun s => if s = col then some (pre.count col) else seenOf pre s) =
      seenOf (pre ++ [col]) := by
  funext s
  by_cases hs : s = col
  · subst hs
    have h1 : (pre ++ [s]).count s = pre.count s + 1 := by
      simp [List.count_append]
    simp [seenOf, h1]
  · have h1 : (pre ++ [col]).count s = pre.count s := by
      simp [List.count_append, List.count_singleton]
      intro hc
      exact absurd hc.symm hs
    simp [seenOf, hs, h1]

lemma muc_go_eq_dedupSpec (rest : List String) :
    ∀ pre, muc_go (seenOf pre) rest = dedupSpec pre rest := by
  induction rest with
  | nil => intro pre; rfl
  | cons col rest ih =>
    intro pre
    by_cases h : pre.count col = 0
    · have hseen : seenOf pre col = none := by simp [seenOf, h]
      have hupd : (fun s => if s = col then some 0 else seenOf pre s) =
          seenOf (pre ++ [col]) := by
        have h2 := seenOf_update pre col
        rwa [h] at h2
      simp only [muc_go, hseen, hupd, ih, dedupSpec]
      simp [dedupEmit, h]
    · have hpos : 0 < pre.count col := Nat.pos_of_ne_zero h
      have hseen : seenOf pre col = some (pre.count col - 1) := by simp [seenOf, h]
      have hsucc : pre.count col - 1 + 1 = pre.count col := Nat.sub_add_cancel hpos
      have hupd : (fun s => if s = col then some (pre.count col) else seenOf pre s) =
          seenOf (pre ++ [col]) := seenOf_update pre col
      simp only [muc_go, hseen, hsucc, hupd, ih, dedupSpec]
      simp [dedupEmit, h]

lemma make_unique_columns_eq_dedupSpec (cols : List String) :
    make_unique_columns cols = dedupSpec [] cols := by
  have h : (fun _ : String => (none : Option Nat)) = seenOf [] := by
    funext s; simp [seenOf]
  rw [make_unique_columns, h, muc_go_eq_dedupSpec]

lemma dedupSpec_getElem? (rest : List String) :
    ∀ pre i, i < rest.length →
      (dedupSpec pre rest)[i]? =
        some (dedupEmit (pre ++ rest.take i) (rest.getD i "")) := by
  induction rest with
  | nil => intro pre i h; simp at h
  | cons col rest ih =>
    intro pre i h
    cases i with
    | zero => simp [dedupSpec]
    | succ i =>
      have hi : i < rest.length := by simpa using h
      have := ih (pre ++ [col]) i hi
      simpa [dedupSpec, List.append_assoc] using this

lemma toDigitsCore_append (b : Nat) :
    ∀ (fuel n : Nat) (ds : List Char),
      Nat.toDigitsCore b fuel n ds = Nat.toDigitsCore b fuel n [] ++ ds := by
  intro fuel
  induction fuel with
  | zero => intro n ds; rfl
  | succ f ih =>
    intro n ds
    simp only [Nat.toDigitsCore]
    by_cases h : n / b = 0
    · simp [h]
    · simp only [h, if_neg h]
      rw [ih (n / b) (Nat.digitChar (n % b) :: ds), ih (n / b) [Nat.digitChar (n % b)]]
      simp

lemma toDigitsCore_eq_decChars :
    ∀ (fuel n : Nat), n < fuel → Nat.toDigitsCore 10 fuel n [] = decChars n := by
  intro fuel
  induction fuel with
  | zero => intro n h; omega
  | succ f ih =>
    intro n h
    by_cases h10 : n / 10 = 0
    · have hlt : n < 10 := by
        have h2 := (Nat.div_eq_zero_iff (by omega)).mp h10
        omega
      rw [decChars]
      simp only [Nat.toDigitsCore]
      simp [hlt, h10, Nat.mod_eq_of_lt hlt]
    · have hge : 10 ≤ n := by
        by_contra hc
        exact h10 (Nat.div_eq_of_lt (by omega))
      have hrec : n / 10 < f := by
        have h1 : n / 10 < n := Nat.div_lt_self (by omega) (by omega)
        omega
      have hL : Nat.toDigitsCore 10 (f + 1) n [] =
          Nat.toDigitsCore 10 f (n / 10) [Nat.digitChar (n % 10)] := by
        simp only [Nat.toDigitsCore]
        simp [h10]
      rw [hL, toDigitsCore_append, ih (n / 10) hrec]
      conv_rhs => rw [decChars]
      simp [show ¬ n < 10 by omega]

lemma repr_eq_decChars (n : Nat) : Nat.repr n = (decChars n).asString := by
  rw [Nat.repr, Nat.toDigits, toDigitsCore_eq_decChars (n + 1) n (Nat.lt_succ_self n)]

lemma digitChar_toNat : ∀ d : Nat, d < 10 → (Nat.digitChar d).toNat = 48 + d := by decide

lemma parseDec_decChars : ∀ n : Nat, parseDec (decChars n) = n := by
  intro n
  induction n using Nat.strong_induction_on with
  | _ n ih =>
    rw [decChars]
    by_cases h : n < 10
    · simp [h, parseDec, List.foldl, digitChar_toNat n h]
    · have hge : 10 ≤ n := by omega
      have h1 : n / 10 < n := Nat.div_lt_self (by omega) (by omega)
      simp only [h, dite_false]
      rw [parseDec, List.foldl_append]
      have h2 := ih (n / 10) h1
      rw [parseDec] at h2
      rw [h2]
      simp [List.foldl, digitChar_toNat (n % 10) (Nat.mod_lt n (by omega))]
      omega

lemma digitChar_bounds : ∀ d : Nat, d < 10 →
    48 ≤ (Nat.digitChar d).toNat ∧ (Nat.digitChar d).toNat ≤ 57 := by decide

lemma decChars_digits : ∀ n : Nat, ∀ c ∈ decChars n,
    48 ≤ c.toNat ∧ c.toNat ≤ 57 := by
  intro n
  induction n using Nat.strong_induction_on with
  | _ n ih =>
    intro c hc
    rw [decChars] at hc
    by_cases h : n < 10
    · simp [h] at hc
      subst hc
      exact digitChar_bounds n h
    · have hge : 10 ≤ n := by omega
      have h1 : n / 10 < n := Nat.div_lt_self (by omega) (by omega)
      simp only [h, dite_false, List.mem_append, List.mem_singleton] at hc
      rcases hc with hc | hc
      · exact ih (n / 10) h1 c hc
      · subst hc
        exact digitChar_bounds (n % 10) (Nat.mod_lt n (by omega))

lemma repr_data (n : Nat) : (Nat.repr n).data = decChars n := by
  rw [repr_eq_decChars]
  rfl

lemma repr_injective {m n : Nat} (h : Nat.repr m = Nat.repr n) : m = n := by
  have hdata : decChars m = decChars n := by
    rw [← repr_data, ← repr_data, h]
  have h2 := congrArg parseDec hdata
  rwa [parseDec_decChars, parseDec_decChars] at h2

lemma digits_sep_cancel :
    ∀ (xs ys rest rest2 : List Char),
      (∀ a ∈ xs, 48 ≤ a.toNat ∧ a.toNat ≤ 57) →
      (∀ a ∈ ys, 48 ≤ a.toNat ∧ a.toNat ≤ 57) →
      xs ++ spChar :: rest = ys ++ spChar :: rest2 → xs = ys ∧ rest = rest2 := by
  intro xs
  induction xs with
  | nil =>
    intro ys rest rest2 _hx hy h
    cases ys with
    | nil => simpa using h
    | cons y ys =>
      exfalso
      have h1 : spChar = y := by
        have h2 := congrArg (fun l => l.headD spChar) h
        simpa using h2
      have h3 := hy y (by simp)
      have h4 : y.toNat = 32 := by rw [← h1]; rfl
      omega
  | cons x xs ih =>
    intro ys rest rest2 hx hy h
    cases ys with
    | nil =>
      exfalso
      have h1 : x = spChar := by
        have h2 := congrArg (fun l => l.headD spChar) h
        simpa using h2
      have h3 := hx x (by simp)
      have h4 : x.toNat = 32 := by rw [h1]; rfl
      omega
    | cons y ys =>
      have h1 : x = y := by
        have h2 := congrArg (fun l => l.headD spChar) h
        simpa using h2
      have h2 : xs ++ spChar :: rest = ys ++ spChar :: rest2 := by
        have h3 := congrArg List.tail h
        simpa using h3
      have h4 := ih ys rest rest2 (fun a ha => hx a (by simp [ha])) (fun a ha => hy a (by simp [ha])) h2
      exact ⟨by rw [h1, h4.1], h4.2⟩

lemma sep_table_decomp : (" - Table ").data = spChar :: ("- Table ").data := rfl

lemma mkLabel_inj {p t p2 t2 : Nat} (h : mkLabel p t = mkLabel p2 t2) :
    p = p2 ∧ t = t2 := by
  have hdata := congrArg String.data h
  simp only [mkLabel, String.data_append, List.append_assoc] at hdata
  have h1 : (Nat.repr (p + 1)).data ++ spChar :: (("- Table ").data ++ (Nat.repr (t + 1)).data) =
      (Nat.repr (p2 + 1)).data ++ spChar :: (("- Table ").data ++ (Nat.repr (t2 + 1)).data) := by
    have h2 := List.append_cancel_left hdata
    rw [← List.append_assoc, ← List.append_assoc] at h2
    simpa [sep_table_decomp] using h2
  have hdig1 : ∀ a ∈ (Nat.repr (p + 1)).data, 48 ≤ a.toNat ∧ a.toNat ≤ 57 := by
    rw [repr_data]; exact decChars_digits (p + 1)
  have hdig2 : ∀ a ∈ (Nat.repr (p2 + 1)).data, 48 ≤ a.toNat ∧ a.toNat ≤ 57 := by
    rw [repr_data]; exact decChars_digits (p2 + 1)
  obtain ⟨hp, hrest⟩ := digits_sep_cancel _ _ _ _ hdig1 hdig2 h1
  have hpeq : p = p2 := by
    have hr : decChars (p + 1) = decChars (p2 + 1) := by
      rw [← repr_data, ← repr_data, hp]
    have h3 := congrArg parseDec hr
    rw [parseDec_decChars, parseDec_decChars] at h3
    omega
  have hteq : t = t2 := by
    have h4 := List.append_cancel_left hrest
    have hr : decChars (t + 1) = decChars (t2 + 1) := by
      rw [← repr_data, ← repr_data, h4]
    have h5 := congrArg parseDec hr
    rw [parseDec_decChars, parseDec_decChars] at h5
    omega
  exact ⟨hpeq, hteq⟩

lemma pageTablesGo_labels_ge (header_option : HeaderOption) (page_num : Nat) :
    ∀ (tables : List RawTable) (k : Nat) (s : String),
      s ∈ (pageTablesGo header_option page_num k tables).map Prod.fst →
      ∃ t, k ≤ t ∧ s = mkLabel page_num t := by
  intro tables
  induction tables with
  | nil => intro k s hs; simp [pageTablesGo] at hs
  | cons table rest ih =>
    intro k s hs
    by_cases h : table = []
    · subst h
      simp only [pageTablesGo, ne_eq, not_true_eq_false, if_false] at hs
      obtain ⟨t, ht, hst⟩ := ih (k + 1) s hs
      exact ⟨t, by omega, hst⟩
    · simp only [pageTablesGo, ne_eq, h, not_false_eq_true, if_true, List.map_cons,
        List.mem_cons] at hs
      rcases hs with hs | hs
      · exact ⟨k, Nat.le_refl k, hs⟩
      · obtain ⟨t, ht, hst⟩ := ih (k + 1) s hs
        exact ⟨t, by omega, hst⟩

lemma pageTablesGo_labels_nodup (header_option : HeaderOption) (page_num : Nat) :
    ∀ (tables : List RawTable) (k : Nat),
      ((pageTablesGo header_option page_num k tables).map Prod.fst).Nodup := by
  intro tables
  induction tables with
  | nil => intro k; simp [pageTablesGo]
  | cons table rest ih =>
    intro k
    by_cases h : table = []
    · subst h
      simpa only [pageTablesGo, ne_eq, not_true_eq_false, if_false] using ih (k + 1)
    · simp only [pageTablesGo, ne_eq, h, not_false_eq_true, if_true, List.map_cons]
      refine List.nodup_cons.mpr ⟨?_, ih (k + 1)⟩
      intro hmem
      obtain ⟨t, ht, hst⟩ := pageTablesGo_labels_ge header_option page_num rest (k + 1) _ hmem
      have := (mkLabel_inj hst).2
      omega

lemma table_labels_cons (header_option : HeaderOption) (page_num : Nat)
    (page : List RawTable) (rest : List (List RawTable)) :
    table_labels (extractPagesGo header_option page_num (page :: rest)) =
      (pageTables header_option page_num page).map Prod.fst ++
        table_labels (extractPagesGo header_option (page_num + 1) rest) := by
  simp [table_labels, extractPagesGo]

lemma extractPagesGo_labels_ge (header_option : HeaderOption) :
    ∀ (pages : List (List RawTable)) (k : Nat) (s : String),
      s ∈ table_labels (extractPagesGo header_option k pages) →
      ∃ p t, k ≤ p ∧ s = mkLabel p t := by
  intro pages
  induction pages with
  | nil => intro k s hs; simp [table_labels, extractPagesGo] at hs
  | cons page rest ih =>
    intro k s hs
    rw [table_labels_cons, List.mem_append] at hs
    rcases hs with hs | hs
    · obtain ⟨t, _ht, hst⟩ := pageTablesGo_labels_ge header_option k page 0 s hs
      exact ⟨k, t, Nat.le_refl k, hst⟩
    · obtain ⟨p, t, hp, hst⟩ := ih (k + 1) s hs
      exact ⟨p, t, by omega, hst⟩

lemma extractPagesGo_labels_nodup (header_option : HeaderOption) :
    ∀ (pages : List (List RawTable)) (k : Nat),
      (table_labels (extractPagesGo header_option k pages)).Nodup := by
  intro pages
  induction pages with
  | nil => intro k; simp [table_labels, extractPagesGo]
  | cons page rest ih =>
    intro k
    rw [table_labels_cons]
    refine List.Nodup.append (pageTablesGo_labels_nodup header_option k page 0) (ih (k + 1)) ?_
    intro s hs1 hs2
    obtain ⟨t, _ht, hst⟩ := pageTablesGo_labels_ge header_option k page 0 s hs1
    obtain ⟨p, t2, hp, hst2⟩ := extractPagesGo_labels_ge header_option rest (k + 1) s hs2
    have heq : mkLabel k t = mkLabel p t2 := by rw [← hst, ← hst2]
    have := (mkLabel_inj heq).1
    omega

lemma pageTablesGo_length (header_option : HeaderOption) (page_num : Nat) :
    ∀ (tables : List RawTable) (k : Nat),
      (pageTablesGo header_option page_num k tables).length =
        (tables.filter (fun t => !t.isEmpty)).length := by
  intro tables
  induction tables with
  | nil => intro k; rfl
  | cons table rest ih =>
    intro k
    by_cases h : table = []
    · subst h
      simp [pageTablesGo, ih (k + 1)]
    · simp [pageTablesGo, h, ih (k + 1), List.filter_cons, List.isEmpty_iff]

/-- Claim C1: on the input `["A", "A", "A_1"]` the deduplicator renames the
repeated `"A"` to `"A_1"`, which collides with the genuine input column
`"A_1"`: the output is not pairwise distinct, contradicting the
stated purpose of the function, making column names unique. -/
theorem C1_make_unique_columns_collision :
    make_unique_columns ["A", "A", "A_1"] = ["A", "A_1", "A_1"] ∧
    ¬ (make_unique_columns ["A", "A", "A_1"]).Nodup := by
  exact ⟨by decide, by decide⟩

/-- Claim C2: the deduplicator emits each string unchanged at its first
occurrence and `"<string>_<n>"` at its nth repeat, where n is the number
of earlier occurrences of the same string; in particular
`["A","B","A","A"]` maps to `["A","B","A_1","A_2"]`. -/
theorem C2_first_occurrence_and_repeats :
    (∀ (cols : List String) (i : Nat), i < cols.length →
      (make_unique_columns cols)[i]? =
        some (if (cols.take i).count (cols.getD i "") = 0 then cols.getD i ""
          else cols.getD i "" ++ "_" ++ Nat.repr ((cols.take i).count (cols.getD i "")))) ∧
    make_unique_columns ["A", "B", "A", "A"] = ["A", "B", "A_1", "A_2"] := by
  constructor
  · intro cols i h
    rw [make_unique_columns_eq_dedupSpec]
    have h1 := dedupSpec_getElem? cols [] i h
    simpa [dedupEmit] using h1
  · decide

theorem C2_first_occurrence_and_repeats_witness :
    (make_unique_columns ["A", "B", "A", "A"])[2]? = some "A_1" := by
  have h := C2_first_occurrence_and_repeats.1 ["A", "B", "A", "A"] 2 (by decide)
  exact h.trans (by decide)

/-- Claim C3 counterexample: after a failing upload the session state does not
return to the pre-upload state: `last_uploaded_filename` now holds the
name of the failed file and `selected_page` is set. -/
theorem C3_error_state_cex :
    (processUpload HeaderOption.allPages initState "doc.pdf" [] (some "boom")).1 ≠
      initState := by
  decide

/-- Claim C3 amended: on an extraction error the whole extraction is
aborted, an error is shown, and no partial per-page results are kept
(`pdf_data` is reset to empty); but `selected_page` is set to 1 and
`last_uploaded_filename` to the name of the failed file, so the state is not
the pre-upload state. -/
theorem C3_error_resets_tables (header_option : HeaderOption) (st : SessionState)
    (filename : String) (pages : List (List RawTable)) (e : String)
    (h : st.last_uploaded_filename ≠ some filename) :
    (processUpload header_option st filename pages (some e)).1.pdf_data = some [] ∧
    (processUpload header_option st filename pages (some e)).2 = true ∧
    (processUpload header_option st filename pages (some e)).1.selected_page = some 1 ∧
    (processUpload header_option st filename pages (some e)).1.last_uploaded_filename =
      some filename := by
  simp [processUpload, h]

theorem C3_error_resets_tables_witness :
    (processUpload HeaderOption.allPages initState "doc.pdf" [[[["x"]]]] (some "boom")).1.pdf_data =
      some [] ∧
    (processUpload HeaderOption.allPages initState "doc.pdf" [[[["x"]]]] (some "boom")).2 = true := by
  have h := C3_error_resets_tables HeaderOption.allPages initState "doc.pdf" [[[["x"]]]] "boom"
    (by decide)
  exact ⟨h.1, h.2.1⟩

/-- Claim C4: an upload with the stored filename leaves the session state
untouched (no re-extraction, no error); an upload with a different
filename rebuilds `pdf_data` from the new document alone (empty on an
extraction error) and resets the page selection, regardless of the old
tables. -/
theorem C4_upload_guard (header_option : HeaderOption) (st : SessionState)
    (filename : String) (pages : List (List RawTable)) (err : Option String) :
    (st.last_uploaded_filename = some filename →
      processUpload header_option st filename pages err = (st, false)) ∧
    (st.last_uploaded_filename ≠ some filename →
      (processUpload header_option st filename pages err).1.pdf_data =
        some (match err with
          | none => extractPages header_option pages
          | some _ => []) ∧
      (processUpload header_option st filename pages err).1.selected_page = some 1 ∧
      (processUpload header_option st filename pages err).1.last_uploaded_filename =
        some filename) := by
  constructor
  · intro h
    simp [processUpload, h]
  · intro h
    cases err with
    | none => simp [processUpload, h]
    | some e => simp [processUpload, h]

theorem C4_upload_guard_witness :
    processUpload HeaderOption.allPages ⟨some [], some 1, some "a.pdf"⟩ "a.pdf"
      [[[["x"]]]] none = (⟨some [], some 1, some "a.pdf"⟩, false) ∧
    (processUpload HeaderOption.allPages ⟨some [(1, ⟨(), [("L", ⟨[], []⟩)]⟩)], some 3, some "a.pdf"⟩
      "b.pdf" [] none).1.pdf_data = some [] := by
  constructor
  · exact (C4_upload_guard HeaderOption.allPages ⟨some [], some 1, some "a.pdf"⟩ "a.pdf"
      [[[["x"]]]] none).1 rfl
  · have h := (C4_upload_guard HeaderOption.allPages
      ⟨some [(1, ⟨(), [("L", ⟨[], []⟩)]⟩)], some 3, some "a.pdf"⟩ "b.pdf" [] none).2 (by decide)
    exact h.1.trans (by decide)

/-- Claim C5: for a non-empty raw table, under "Only First Page" a table on a
page other than the first keeps every row as data under default
positional column labels; under "All Pages" the first row is promoted to
deduplicated named column labels and the remaining rows become the
data. -/
theorem C5_header_promotion :
    ∀ (table : RawTable), table ≠ [] → ∀ page_num : Nat,
      (page_num ≠ 0 →
        tableDF HeaderOption.onlyFirstPage page_num table =
          ⟨(List.range (tableWidth table)).map ColName.pos, table⟩) ∧
      tableDF HeaderOption.allPages page_num table =
        ⟨(make_unique_columns (table.headD [])).map ColName.named, table.tail⟩ := by
  intro table _htable page_num
  constructor
  · intro hpage
    rw [tableDF, if_neg]
    simp [hpage]
  · rw [tableDF, if_pos]
    left
    rfl

theorem C5_header_promotion_witness :
    tableDF HeaderOption.onlyFirstPage 1 [["h"], ["d"]] =
      ⟨[ColName.pos 0], [["h"], ["d"]]⟩ ∧
    tableDF HeaderOption.allPages 1 [["h"], ["d"]] =
      ⟨[ColName.named "h"], [["d"]]⟩ := by
  have h := C5_header_promotion [["h"], ["d"]] (by decide) 1
  constructor
  · exact (h.1 (by decide)).trans (by decide)
  · exact h.2.trans (by decide)

/-- Claim C6: for a non-empty selection the export block produces a combined
frame whose rows are the rows of the selected frames in order (aligned
to the unioned columns), so its row count is the sum of the selected row
counts; with an empty selection no artifacts are produced at all. -/
theorem C6_combined_rows (tableLabels : List String) (allTables : List DF)
    (select_all : Bool) (selected_labels : List String) :
    (selected_tables tableLabels allTables select_all selected_labels ≠ [] →
      ∃ a, renderExports tableLabels allTables select_all selected_labels = some a ∧
        a.combined.rows.length =
          ((selected_tables tableLabels allTables select_all selected_labels).map
            (fun df => df.rows.length)).sum ∧
        a.combined.rows =
          (selected_tables tableLabels allTables select_all selected_labels).flatMap
            (fun df => df.rows.map
              (alignRow df.columns
                (colUnion (selected_tables tableLabels allTables select_all selected_labels))))) ∧
    (selected_tables tableLabels allTables select_all selected_labels = [] →
      renderExports tableLabels allTables select_all selected_labels = none) := by
  constructor
  · intro hne
    refine ⟨⟨pd_concat (selected_tables tableLabels allTables select_all selected_labels),
      "combined_table.csv", "Sheet1",
      (tableLabels.zip allTables).map (fun lt => (lt.1 ++ ".csv", lt.2))⟩, ?_, ?_, rfl⟩
    · rw [renderExports, if_neg hne]
    · show (pd_concat (selected_tables tableLabels allTables select_all selected_labels)).rows.length = _
      rw [pd_concat]
      simp [List.length_flatMap, Function.comp_def]
  · intro he
    rw [renderExports, if_pos he]

theorem C6_combined_rows_witness :
    ∃ a, renderExports ["L1", "L2"]
        [⟨[ColName.pos 0], [["a"], ["b"]]⟩, ⟨[ColName.named "h"], [["c"]]⟩] true [] = some a ∧
      a.combined.rows.length = 3 := by
  obtain ⟨a, ha, hlen, _⟩ := (C6_combined_rows ["L1", "L2"]
    [⟨[ColName.pos 0], [["a"], ["b"]]⟩, ⟨[ColName.named "h"], [["c"]]⟩] true []).1 (by decide)
  refine ⟨a, ha, ?_⟩
  rw [hlen]
  decide

/-- Claim C7 counterexample: with one extracted table but an empty selection
the export block produces nothing, so no ZIP download exists even though
a table was extracted: ZIP availability is not gated only on extraction. -/
theorem C7_zip_gated_on_selection_cex :
    (["Page 1 - Table 1"] : List String) ≠ [] ∧
    renderExports ["Page 1 - Table 1"] [⟨[ColName.pos 0], [["x"]]⟩] false [] = none := by
  exact ⟨by decide, by decide⟩

/-- Claim C7 amended: whenever the export block runs, the ZIP archive contains
exactly one `<label>.csv` entry per extracted table across all pages,
independent of the selection; but the export block (ZIP download
included) is available exactly when the current selection is non-empty,
not merely when a table has been extracted. -/
theorem C7_zip_entries (tableLabels : List String) (allTables : List DF)
    (select_all : Bool) (selected_labels : List String) :
    (∀ a, renderExports tableLabels allTables select_all selected_labels = some a →
      a.zip_entries = (tableLabels.zip allTables).map (fun lt => (lt.1 ++ ".csv", lt.2))) ∧
    ((renderExports tableLabels allTables select_all selected_labels).isSome ↔
      selected_tables tableLabels allTables select_all selected_labels ≠ []) := by
  constructor
  · intro a ha
    by_cases h : selected_tables tableLabels allTables select_all selected_labels = []
    · rw [renderExports, if_pos h] at ha
      exact absurd ha (by simp)
    · rw [renderExports, if_neg h] at ha
      injection ha with ha2
      rw [← ha2]
  · by_cases h : selected_tables tableLabels allTables select_all selected_labels = []
    · simp [renderExports, h]
    · simp [renderExports, h]

theorem C7_zip_entries_witness :
    ∃ a, renderExports ["Page 1 - Table 1"] [⟨[ColName.pos 0], [["x"]]⟩] true [] = some a ∧
      a.zip_entries = [("Page 1 - Table 1.csv", ⟨[ColName.pos 0], [["x"]]⟩)] := by
  have h := C7_zip_entries ["Page 1 - Table 1"] [⟨[ColName.pos 0], [["x"]]⟩] true []
  have hsome : (renderExports ["Page 1 - Table 1"] [⟨[ColName.pos 0], [["x"]]⟩] true []).isSome :=
    h.2.mpr (by decide)
  obtain ⟨a, ha⟩ := Option.isSome_iff_exists.mp hsome
  refine ⟨a, ha, ?_⟩
  exact (h.1 a ha).trans (by decide)

/-- Claim C8: the labels assigned by extraction are pairwise distinct within a
document. -/
theorem C8_labels_nodup (header_option : HeaderOption) (pages : List (List RawTable)) :
    (table_labels (extractPages header_option pages)).Nodup :=
  extractPagesGo_labels_nodup header_option pages 0

/-- Claim C9 counterexample: with a non-empty extraction result and a stored
page selection that is not one of its keys, reading the tables of the
selected page fails (the `KeyError` case) instead of defaulting to page 1. -/
theorem C9_stale_page_cex :
    ([(1, (⟨(), []⟩ : PageEntry))] ≠ ([] : List (Nat × PageEntry))) ∧
    viewerTables [(1, ⟨(), []⟩)] (some 2) = none := by
  exact ⟨by decide, by decide⟩

/-- Claim C9 amended: an unset page selection is tolerated by defaulting to
page 1, which is always a key of a non-empty extraction result; a stale
selection that is not a key is not tolerated. -/
theorem C9_unset_defaults (header_option : HeaderOption) (pages : List (List RawTable))
    (h : pages ≠ []) :
    viewerTables (extractPages header_option pages) none =
      some (pageTables header_option 0 (pages.headD [])) := by
  cases pages with
  | nil => exact absurd rfl h
  | cons page rest =>
    simp [viewerTables, extractPages, extractPagesGo, List.lookup]

theorem C9_unset_defaults_witness :
    viewerTables (extractPages HeaderOption.allPages [[[["x"]]]]) none =
      some (pageTables HeaderOption.allPages 0 [[["x"]]]) := by
  have h := C9_unset_defaults HeaderOption.allPages [[[["x"]]]] (by decide)
  simpa using h

/-- Claim C10: an empty raw table is omitted from the table list of its page, but
the label numbering counts every raw table including the omitted ones,
so the table numbers in the labels of one page need not be consecutive: a page
whose parser output is `[[], [["x"]]]` gets a single table labelled
"Page 1 - Table 2" and no "Page 1 - Table 1". -/
theorem C10_empty_tables_skipped_but_counted :
    (∀ (header_option : HeaderOption) (page_num : Nat) (tables : List RawTable),
      (pageTables header_option page_num tables).length =
        (tables.filter (fun t => !t.isEmpty)).length) ∧
    pageTables HeaderOption.allPages 0 [[], [["x"]]] =
      [("Page 1 - Table 2", tableDF HeaderOption.allPages 0 [["x"]])] ∧
    ¬ ("Page 1 - Table 1" ∈ (pageTables HeaderOption.allPages 0 [[], [["x"]]]).map Prod.fst) := by
  refine ⟨?_, by decide, by decide⟩
  intro header_option page_num tables
  exact pageTablesGo_length header_option page_num tables 0
